import Mathlib

/-!
# Verification of the checkmate repository's timeline and game-review core

This file gives a shallow embedding of the two core subsystems of the
repository:

* `Timeline` — the branching board-position timeline of
  `src/lib/chess/board.ts` (`BoardTimeline`), modelled over an abstract
  position type `α`.  The chess rules capability (`chess.js`) is external:
  a move attempt is represented by the partial function `α → Option α`
  that `BoardState.push` realises, and PGN parsing by the list of positions
  it produces.
* `Review` — the game-review engine of `src/lib/chess/game_review.ts`
  (`MoveFeedback`, `TimelineAnnotations`, `GameReviewer`) together with the
  evaluation helpers of `src/lib/chess/stockfish.ts`
  (`evalAsAbsoluteScore`, `getBestMove`).  JavaScript numbers are modelled
  as `Int` (centipawn scores) and `ℚ` (accuracy ratios); thrown JavaScript
  errors are modelled with `Except String` carrying the thrown message.
-/

namespace Timeline

/-- The `TimelinePosition` from `board.ts`: a cursor naming a branch and an
index within it.  TS numbers are modelled as `Nat`; every mutation of the
index in `board.ts` is guarded so it never goes below zero. -/
structure TimelinePosition where
  main : Bool
  index : Nat
deriving DecidableEq, Repr

/-- The `positionsEqual` from `board.ts`. -/
def positionsEqual (a b : TimelinePosition) : Bool :=
  a.main == b.main && a.index == b.index

/-- The `MoveResult` from `board.ts`. -/
structure MoveResult where
  valid : Bool
  newPosition : TimelinePosition
deriving DecidableEq, Repr

/-- The mutable state of the `BoardTimeline` class from `board.ts`,
parametrised over the board-state type `α` (the `BoardState` objects are
opaque to the timeline logic). -/
structure BoardTimeline (α : Type) where
  position : TimelinePosition
  main : List α
  hypothetical : List α
  hypotheticalForksFrom : Nat
deriving DecidableEq, Repr

variable {α : Type}

/-- The `BoardTimeline` constructor: `root` stands for
`BoardState.fromFEN(INITIAL_BOARD_FEN)`. -/
def initialTimeline (root : α) : BoardTimeline α :=
  { position := ⟨false, 0⟩
    main := []
    hypothetical := [root]
    hypotheticalForksFrom := 0 }

/-- The `BoardTimeline.loadFEN`: `root` stands for `BoardState.fromFEN(fen)`. -/
def loadFENState (root : α) (_t : BoardTimeline α) : BoardTimeline α :=
  { position := ⟨false, 0⟩
    main := []
    hypothetical := [root]
    hypotheticalForksFrom := 0 }

/-- The `BoardTimeline.loadPGN`, with the parsing done by the external rules
capability: `root` is the initial board state and `hist` the board states
produced from the parsed move history. -/
def loadPGNState (root : α) (hist : List α) (_t : BoardTimeline α) :
    BoardTimeline α :=
  { position := ⟨true, 0⟩
    main := root :: hist
    hypothetical := []
    hypotheticalForksFrom := 0 }

/-- The `BoardTimeline.getBoardState`.  The TS code indexes the active branch
directly and yields `undefined` out of bounds; this is modelled by
`none`. -/
def getBoardState (t : BoardTimeline α) : Option α :=
  if t.position.main then t.main[t.position.index]?
  else t.hypothetical[t.position.index]?

/-- The `BoardTimeline.makeMove`.  The parameter `f` is the external rules
capability applied to the chosen from/to/promotion triple, i.e.
`fun s => s.push(fromIndex, toIndex, promotion)`; it returns `none` for an
illegal move.  The outer `Option` models the TS crash that would occur if
the cursor were out of bounds (`undefined.push`). -/
def makeMove (f : α → Option α) (t : BoardTimeline α) :
    Option (MoveResult × BoardTimeline α) :=
  match getBoardState t with
  | none => none
  | some cur =>
    match f cur with
    | none => some ({ valid := false, newPosition := t.position }, t)
    | some nextState =>
      if t.position.main then
        let t' : BoardTimeline α :=
          { t with
            hypotheticalForksFrom := t.position.index
            hypothetical := [nextState]
            position := ⟨false, 0⟩ }
        some ({ valid := true, newPosition := t'.position }, t')
      else
        let hyp :=
          if t.position.index = t.hypothetical.length - 1 then
            t.hypothetical ++ [nextState]
          else
            t.hypothetical.take (t.position.index + 1) ++ [nextState]
        let t' : BoardTimeline α :=
          { t with
            hypothetical := hyp
            position := ⟨false, t.position.index + 1⟩ }
        some ({ valid := true, newPosition := t'.position }, t')

/-- The state change performed by `BoardTimeline.previous`. -/
def previousState (t : BoardTimeline α) : BoardTimeline α :=
  if t.position.main then
    if 0 < t.position.index then
      { t with position := ⟨true, t.position.index - 1⟩ }
    else t
  else
    if 0 < t.position.index then
      { t with position := ⟨false, t.position.index - 1⟩ }
    else if 0 < t.main.length then
      { t with position := ⟨true, t.hypotheticalForksFrom⟩, hypothetical := [] }
    else t

/-- The `BoardTimeline.previous`: performs the state change and returns the new
cursor. -/
def previous (t : BoardTimeline α) : TimelinePosition × BoardTimeline α :=
  ((previousState t).position, previousState t)

/-- The state change performed by `BoardTimeline.next`.  The TS guard
`index < length - 1` is false for `length = 0` (it compares with `-1`),
matching truncated `Nat` subtraction here. -/
def nextState (t : BoardTimeline α) : BoardTimeline α :=
  if t.position.main then
    if t.position.index < t.main.length - 1 then
      { t with position := ⟨true, t.position.index + 1⟩ }
    else t
  else
    if t.position.index < t.hypothetical.length - 1 then
      { t with position := ⟨false, t.position.index + 1⟩ }
    else t

/-- The `BoardTimeline.next`. -/
def next (t : BoardTimeline α) : TimelinePosition × BoardTimeline α :=
  ((nextState t).position, nextState t)

/-- One `while` iteration bundle for `jumpToStart`: repeatedly call
`previous` until the cursor stops changing.  The fuel bounds the number of
iterations; `jumpToStartState` supplies enough fuel for the loop to reach
its fixed point, so the fueled function agrees with the TS `while (1)`
loop. -/
def jumpToStartAux : Nat → BoardTimeline α → BoardTimeline α
  | 0, t => t
  | fuel + 1, t =>
    if (previousState t).position = t.position then previousState t
    else jumpToStartAux fuel (previousState t)

/-- Fuel sufficient for `jumpToStartAux` to reach the loop's fixed point:
each cursor-changing `previous` call strictly decreases
`index` on `main`, and `index + hypotheticalForksFrom + 1` on the
hypothetical branch. -/
def jumpToStartFuel (t : BoardTimeline α) : Nat :=
  t.position.index + t.hypotheticalForksFrom + 2

/-- The state change performed by `BoardTimeline.jumpToStart`. -/
def jumpToStartState (t : BoardTimeline α) : BoardTimeline α :=
  jumpToStartAux (jumpToStartFuel t) t

/-- The `BoardTimeline.jumpToStart`: loops `previous` to its fixed point and
returns the final cursor. -/
def jumpToStart (t : BoardTimeline α) : TimelinePosition × BoardTimeline α :=
  ((jumpToStartState t).position, jumpToStartState t)

/-- Fueled loop for `jumpToEnd`, analogous to `jumpToStartAux`. -/
def jumpToEndAux : Nat → BoardTimeline α → BoardTimeline α
  | 0, t => t
  | fuel + 1, t =>
    if (nextState t).position = t.position then nextState t
    else jumpToEndAux fuel (nextState t)

/-- The state change performed by `BoardTimeline.jumpToEnd`: each
cursor-changing `next` call increases the index, which is bounded by the
active branch length. -/
def jumpToEndState (t : BoardTimeline α) : BoardTimeline α :=
  jumpToEndAux (t.main.length + t.hypothetical.length + 1) t

/-- The `BoardTimeline.jumpToEnd`. -/
def jumpToEnd (t : BoardTimeline α) : TimelinePosition × BoardTimeline α :=
  ((jumpToEndState t).position, jumpToEndState t)

/-- One public operation of `BoardTimeline`, as invocable through
`ChessInterface`.  `attemptMove` is only a step when the TS call returns
(i.e. the cursor was in bounds); an illegal move is the `valid := false`
result and leaves the state unchanged. -/
inductive TLStep : BoardTimeline α → BoardTimeline α → Prop where
  | loadPGN (t : BoardTimeline α) (root : α) (hist : List α) :
      TLStep t (loadPGNState root hist t)
  | loadFEN (t : BoardTimeline α) (root : α) :
      TLStep t (loadFENState root t)
  | attemptMove (t : BoardTimeline α) (f : α → Option α) (r : MoveResult)
      (t' : BoardTimeline α) (h : makeMove f t = some (r, t')) :
      TLStep t t'
  | stepBackward (t : BoardTimeline α) : TLStep t (previousState t)
  | stepForward (t : BoardTimeline α) : TLStep t (nextState t)
  | jumpToStart (t : BoardTimeline α) : TLStep t (jumpToStartState t)
  | jumpToEnd (t : BoardTimeline α) : TLStep t (jumpToEndState t)

/-- Reachability by any sequence of public timeline operations. -/
def ReachableTL (s t : BoardTimeline α) : Prop :=
  Relation.ReflTransGen TLStep s t

/-- Structural well-formedness of a timeline state: the cursor is in
bounds of the active branch, and the fork index is in bounds of `main`
whenever `main` is non-empty. -/
structure WF (t : BoardTimeline α) : Prop where
  mainBound : t.position.main = true → t.position.index < t.main.length
  hypBound : t.position.main = false → t.position.index < t.hypothetical.length
  forkBound : t.main ≠ [] → t.hypotheticalForksFrom < t.main.length

theorem wf_initial (root : α) : WF (initialTimeline root) := by
  constructor <;> simp [initialTimeline]

theorem wf_loadFEN (root : α) (t : BoardTimeline α) : WF (loadFENState root t) := by
  constructor <;> simp [loadFENState]

theorem wf_loadPGN (root : α) (hist : List α) (t : BoardTimeline α) :
    WF (loadPGNState root hist t) := by
  constructor <;> simp [loadPGNState]

theorem wf_makeMove {f : α → Option α} {t : BoardTimeline α} {r : MoveResult}
    {t' : BoardTimeline α} (hwf : WF t) (h : makeMove f t = some (r, t')) :
    WF t' := by
  unfold makeMove at h
  split at h
  · exact absurd h (by simp)
  rename_i cur hcur
  split at h
  · simp only [Option.some.injEq, Prod.mk.injEq] at h
    exact h.2 ▸ hwf
  rename_i nextState hf
  split at h
  · rename_i hm
    simp only [Option.some.injEq, Prod.mk.injEq] at h
    cases h.2
    constructor
    · intro hc; simp at hc
    · intro _; simp
    · intro _; exact hwf.mainBound hm
  · rename_i hm
    simp only [Option.some.injEq, Prod.mk.injEq] at h
    cases h.2
    have hidx : t.position.index < t.hypothetical.length :=
      hwf.hypBound (by simpa using hm)
    constructor
    · intro hc; simp at hc
    · intro _
      by_cases he : t.position.index = t.hypothetical.length - 1
      · simp only [he, if_pos, List.length_append, List.length_cons]
        omega
      · simp only [he, if_neg, not_false_iff, List.length_append, List.length_take,
          List.length_cons]
        omega
    · intro hne; exact hwf.forkBound hne

theorem wf_previousState {t : BoardTimeline α} (hwf : WF t) : WF (previousState t) := by
  unfold previousState
  by_cases hm : t.position.main
  · by_cases hi : 0 < t.position.index
    · simp only [hm, hi, if_pos]
      constructor
      · intro _; have := hwf.mainBound hm; simp; omega
      · intro hc; simp at hc
      · intro hne; exact hwf.forkBound hne
    · simp only [hm, hi, if_pos, if_neg, not_false_iff]
      exact hwf
  · by_cases hi : 0 < t.position.index
    · simp only [hm, hi, if_pos, if_neg, Bool.false_eq_true, not_false_iff]
      constructor
      · intro hc; simp at hc
      · intro _; have := hwf.hypBound (by simpa using hm); simp; omega
      · intro hne; exact hwf.forkBound hne
    · by_cases hmain : 0 < t.main.length
      · simp only [hm, hi, hmain, if_pos, if_neg, Bool.false_eq_true, not_false_iff]
        constructor
        · intro _
          exact hwf.forkBound (by intro hc; rw [hc] at hmain; simp at hmain)
        · intro hc; simp at hc
        · intro hne; exact hwf.forkBound hne
      · simp only [hm, hi, hmain, if_neg, Bool.false_eq_true, not_false_iff]
        exact hwf

theorem wf_nextState {t : BoardTimeline α} (hwf : WF t) : WF (nextState t) := by
  unfold nextState
  by_cases hm : t.position.main
  · by_cases hi : t.position.index < t.main.length - 1
    · simp only [hm, hi, if_pos]
      constructor
      · intro _; simp; omega
      · intro hc; simp at hc
      · intro hne; exact hwf.forkBound hne
    · simp only [hm, hi, if_pos, if_neg, not_false_iff]
      exact hwf
  · by_cases hi : t.position.index < t.hypothetical.length - 1
    · simp only [hm, hi, if_pos, if_neg, Bool.false_eq_true, not_false_iff]
      constructor
      · intro hc; simp at hc
      · intro _; simp; omega
      · intro hne; exact hwf.forkBound hne
    · simp only [hm, hi, if_neg, Bool.false_eq_true, not_false_iff]
      exact hwf

theorem wf_jumpToStartAux {t : BoardTimeline α} (hwf : WF t) (fuel : Nat) :
    WF (jumpToStartAux fuel t) := by
  induction fuel generalizing t with
  | zero => exact hwf
  | succ n ih =>
    unfold jumpToStartAux
    by_cases h : (previousState t).position = t.position
    · simp only [h, if_pos]
      exact wf_previousState hwf
    · simp only [h, if_neg, not_false_iff]
      exact ih (wf_previousState hwf)

theorem wf_jumpToEndAux {t : BoardTimeline α} (hwf : WF t) (fuel : Nat) :
    WF (jumpToEndAux fuel t) := by
  induction fuel generalizing t with
  | zero => exact hwf
  | succ n ih =>
    unfold jumpToEndAux
    by_cases h : (nextState t).position = t.position
    · simp only [h, if_pos]
      exact wf_nextState hwf
    · simp only [h, if_neg, not_false_iff]
      exact ih (wf_nextState hwf)

theorem wf_step {t t' : BoardTimeline α} (hwf : WF t) (h : TLStep t t') : WF t' := by
  cases h with
  | loadPGN root hist => exact wf_loadPGN root hist t
  | loadFEN root => exact wf_loadFEN root t
  | attemptMove f r t' hm => exact wf_makeMove hwf hm
  | stepBackward => exact wf_previousState hwf
  | stepForward => exact wf_nextState hwf
  | jumpToStart => exact wf_jumpToStartAux hwf _
  | jumpToEnd => exact wf_jumpToEndAux hwf _

theorem wf_reachable {s t : BoardTimeline α} (hwf : WF s) (h : ReachableTL s t) :
    WF t := by
  induction h with
  | refl => exact hwf
  | tail _ hstep ih => exact wf_step ih hstep

/-- Running the `jumpToStart` loop from a cursor on `main` reaches
`{onMain: true, index: 0}`, given enough fuel, leaving the rest of the
state untouched. -/
theorem jumpToStartAux_on_main (fuel : Nat) (t : BoardTimeline α)
    (hm : t.position.main = true) (hf : t.position.index < fuel) :
    jumpToStartAux fuel t = { t with position := ⟨true, 0⟩ } := by
  induction fuel generalizing t with
  | zero => omega
  | succ n ih =>
    obtain ⟨⟨pm, pi⟩, m, hyp, fk⟩ := t
    simp only at hm hf
    subst hm
    by_cases hi : 0 < pi
    · have hprev : previousState (⟨⟨true, pi⟩, m, hyp, fk⟩ : BoardTimeline α) =
          ⟨⟨true, pi - 1⟩, m, hyp, fk⟩ := by
        simp [previousState, hi]
      simp only [jumpToStartAux, hprev]
      rw [if_neg (by simp only [TimelinePosition.mk.injEq]; omega)]
      exact ih _ rfl (by simp only; omega)
    · have hpi : pi = 0 := by omega
      subst hpi
      have hprev : previousState (⟨⟨true, 0⟩, m, hyp, fk⟩ : BoardTimeline α) =
          ⟨⟨true, 0⟩, m, hyp, fk⟩ := by
        simp [previousState]
      simp only [jumpToStartAux, hprev, if_pos]

/-- Running the `jumpToStart` loop from the hypothetical branch with an
empty `main` reaches `{onMain: false, index: 0}` and changes nothing
else. -/
theorem jumpToStartAux_hyp_no_main (fuel : Nat) (t : BoardTimeline α)
    (hm : t.position.main = false) (hmain : t.main = [])
    (hf : t.position.index < fuel) :
    jumpToStartAux fuel t = { t with position := ⟨false, 0⟩ } := by
  induction fuel generalizing t with
  | zero => omega
  | succ n ih =>
    obtain ⟨⟨pm, pi⟩, m, hyp, fk⟩ := t
    simp only at hm hf hmain
    subst hm
    subst hmain
    by_cases hi : 0 < pi
    · have hprev : previousState (⟨⟨false, pi⟩, [], hyp, fk⟩ : BoardTimeline α) =
          ⟨⟨false, pi - 1⟩, [], hyp, fk⟩ := by
        simp [previousState, hi]
      simp only [jumpToStartAux, hprev]
      rw [if_neg (by simp only [TimelinePosition.mk.injEq]; omega)]
      exact ih _ rfl rfl (by simp only; omega)
    · have hpi : pi = 0 := by omega
      subst hpi
      have hprev : previousState (⟨⟨false, 0⟩, [], hyp, fk⟩ : BoardTimeline α) =
          ⟨⟨false, 0⟩, [], hyp, fk⟩ := by
        simp [previousState]
      simp only [jumpToStartAux, hprev, if_pos]

/-- Running the `jumpToStart` loop from the hypothetical branch with a
non-empty `main` collapses onto `main` at the fork index and then keeps
stepping backward all the way to `{onMain: true, index: 0}`, discarding
the hypothetical branch. -/
theorem jumpToStartAux_hyp_main (fuel : Nat) (t : BoardTimeline α)
    (hm : t.position.main = false) (hmain : t.main ≠ [])
    (hf : t.position.index + t.hypotheticalForksFrom + 2 ≤ fuel) :
    jumpToStartAux fuel t =
      { t with position := ⟨true, 0⟩, hypothetical := [] } := by
  induction fuel generalizing t with
  | zero => omega
  | succ n ih =>
    obtain ⟨⟨pm, pi⟩, m, hyp, fk⟩ := t
    simp only at hm hf hmain
    subst hm
    by_cases hi : 0 < pi
    · have hprev : previousState (⟨⟨false, pi⟩, m, hyp, fk⟩ : BoardTimeline α) =
          ⟨⟨false, pi - 1⟩, m, hyp, fk⟩ := by
        simp [previousState, hi]
      simp only [jumpToStartAux, hprev]
      rw [if_neg (by simp only [TimelinePosition.mk.injEq]; omega)]
      exact ih _ rfl hmain (by simp only; omega)
    · have hpi : pi = 0 := by omega
      subst hpi
      have hlen : 0 < m.length := List.length_pos.mpr hmain
      have hprev : previousState (⟨⟨false, 0⟩, m, hyp, fk⟩ : BoardTimeline α) =
          ⟨⟨true, fk⟩, m, [], fk⟩ := by
        simp [previousState, hlen]
      simp only [jumpToStartAux, hprev]
      rw [if_neg (by simp only [TimelinePosition.mk.injEq]; simp)]
      have := jumpToStartAux_on_main n (⟨⟨true, fk⟩, m, [], fk⟩ : BoardTimeline α)
        rfl (by simp only; omega)
      simpa using this

/-- A single `attemptMove` call that returns (legal or rejected): the
relation over which claim C4 quantifies. -/
def MoveStep (a b : BoardTimeline α) : Prop :=
  ∃ f r, makeMove f a = some (r, b)

/-- Reachability by `attemptMove` calls only. -/
def ReachableByMoves (s t : BoardTimeline α) : Prop :=
  Relation.ReflTransGen MoveStep s t

theorem makeMove_cursor_off_main {f : α → Option α} {t : BoardTimeline α}
    {r : MoveResult} {t' : BoardTimeline α} (h : makeMove f t = some (r, t')) :
    t'.position.main = false ∨ t' = t := by
  unfold makeMove at h
  split at h
  · exact absurd h (by simp)
  split at h
  · simp only [Option.some.injEq, Prod.mk.injEq] at h
    exact Or.inr h.2.symm
  split at h <;>
  · simp only [Option.some.injEq, Prod.mk.injEq] at h
    exact Or.inl (by rw [← h.2])

theorem reachableByMoves_wf {s t : BoardTimeline α} (hwf : WF s)
    (h : ReachableByMoves s t) : WF t := by
  induction h with
  | refl => exact hwf
  | tail _ hstep ih =>
    obtain ⟨f, r, hm⟩ := hstep
    exact wf_makeMove ih hm

theorem reachableByMoves_off_main {s t : BoardTimeline α}
    (hs : s.position.main = false) (h : ReachableByMoves s t) :
    t.position.main = false := by
  induction h with
  | refl => exact hs
  | tail _ hstep ih =>
    obtain ⟨f, r, hm⟩ := hstep
    rcases makeMove_cursor_off_main hm with h' | h'
    · exact h'
    · rw [h']; exact ih

/-- The main and hypothetical branches of the state reached by
`jumpToStart` from the hypothetical branch, by the run lemmas. -/
theorem jumpToStartState_off_main {t : BoardTimeline α}
    (hm : t.position.main = false) :
    jumpToStartState t =
      (if t.main.isEmpty then { t with position := ⟨false, 0⟩ }
       else { t with position := ⟨true, 0⟩, hypothetical := [] }) := by
  by_cases hmain : t.main = []
  · rw [if_pos (List.isEmpty_iff.mpr hmain)]
    exact jumpToStartAux_hyp_no_main _ t hm hmain (by unfold jumpToStartFuel; omega)
  · rw [if_neg (by simpa [List.isEmpty_iff] using hmain)]
    exact jumpToStartAux_hyp_main _ t hm hmain (by unfold jumpToStartFuel; omega)

theorem jumpToStartState_on_main {t : BoardTimeline α}
    (hm : t.position.main = true) :
    jumpToStartState t = { t with position := ⟨true, 0⟩ } :=
  jumpToStartAux_on_main _ t hm (by unfold jumpToStartFuel; omega)

/-- C4 (amended): for every timeline state reachable by `attemptMove`
calls from a well-formed state whose cursor sits at the hypothetical
branch's root, iterating `stepBackward` to its fixed point (`jumpToStart`)
leaves the cursor at `{onMain: false, index: 0}` when `main` is empty, and
at `{onMain: true, index: 0}` — the start of `main`, not the fork point —
when `main` is non-empty; and `jumpToStart` is idempotent on the full
state. -/
theorem jumpToStart_fixed_point_and_idempotent {s t : BoardTimeline α}
    (hwf : WF s) (hroot : s.position = ⟨false, 0⟩)
    (hreach : ReachableByMoves s t) :
    (jumpToStart t).1 =
      (if t.main.isEmpty then (⟨false, 0⟩ : TimelinePosition) else ⟨true, 0⟩) ∧
    jumpToStartState (jumpToStartState t) = jumpToStartState t := by
  have hoff : t.position.main = false :=
    reachableByMoves_off_main (by rw [hroot]) hreach
  have hchar := jumpToStartState_off_main hoff
  by_cases hmain : t.main = []
  · have hE : t.main.isEmpty = true := List.isEmpty_iff.mpr hmain
    rw [if_pos hE] at hchar
    constructor
    · show (jumpToStartState t).position = _
      rw [hchar, if_pos hE]
    · rw [hchar]
      have h2 := jumpToStartState_off_main
        (show ({ t with position := ⟨false, 0⟩ } : BoardTimeline α).position.main
          = false from rfl)
      rw [h2]
      simp [hE]
  · have hE : t.main.isEmpty = false := by simpa [List.isEmpty_iff] using hmain
    rw [if_neg (by simp [hE])] at hchar
    constructor
    · show (jumpToStartState t).position = _
      rw [hchar, if_neg (by simp [hE])]
    · rw [hchar]
      have h2 := jumpToStartState_on_main
        (show ({ t with position := ⟨true, 0⟩, hypothetical := [] } :
          BoardTimeline α).position.main = true from rfl)
      rw [h2]

/-- C4 witness: the initial timeline is a hypothetical-root state;
`jumpToStart` fixes the cursor at `{onMain: false, index: 0}` and is
idempotent there. -/
theorem jumpToStart_fixed_point_and_idempotent_witness :
    (jumpToStart (initialTimeline (0 : Nat))).1 = ⟨false, 0⟩ ∧
    jumpToStartState (jumpToStartState (initialTimeline (0 : Nat))) =
      jumpToStartState (initialTimeline (0 : Nat)) := by
  have h := jumpToStart_fixed_point_and_idempotent (wf_initial 0) rfl
    Relation.ReflTransGen.refl
  simpa using h

/-- C4 counterexample: a well-formed hypothetical-root state forked from
`main` index 1 — repeating `stepBackward` to its fixed point lands the
cursor at `{onMain: true, index: 0}`, not at the fork point
`{onMain: true, index: forkIndex} = {onMain: true, index: 1}` the claim
names. -/
theorem jumpToStart_fork_point_cex :
    (⟨⟨false, 0⟩, [10, 11], [20], 1⟩ : BoardTimeline Nat).main ≠ [] ∧
    (⟨⟨false, 0⟩, [10, 11], [20], 1⟩ : BoardTimeline Nat).hypotheticalForksFrom
      = 1 ∧
    (jumpToStart (⟨⟨false, 0⟩, [10, 11], [20], 1⟩ : BoardTimeline Nat)).1 ≠
      ⟨true, 1⟩ ∧
    (jumpToStart (⟨⟨false, 0⟩, [10, 11], [20], 1⟩ : BoardTimeline Nat)).1 =
      ⟨true, 0⟩ := by
  refine ⟨by decide, rfl, by decide, by decide⟩

/-- C5 counterexample: `loadPGN` is a public operation reachable in one
step from the initial state, and it leaves the hypothetical branch
empty. -/
theorem loadPGN_empties_hypothetical_cex :
    ReachableTL (initialTimeline (0 : Nat))
      (loadPGNState 1 [2] (initialTimeline (0 : Nat))) ∧
    (loadPGNState 1 [2] (initialTimeline (0 : Nat))).hypothetical = [] :=
  ⟨Relation.ReflTransGen.single (TLStep.loadPGN _ 1 [2]), rfl⟩

/-- C5 (amended): in every state reachable from the initial timeline by
public operations, the hypothetical branch is non-empty whenever the
cursor is on the hypothetical branch (after `loadPGN` or a backward
collapse onto `main` the hypothetical branch is empty, but the cursor is
then on `main`). -/
theorem hypothetical_nonempty_off_main {root : α} {t : BoardTimeline α}
    (h : ReachableTL (initialTimeline root) t)
    (hm : t.position.main = false) : t.hypothetical ≠ [] := by
  have hwf := wf_reachable (wf_initial root) h
  have hlt := hwf.hypBound hm
  exact List.ne_nil_of_length_pos (by omega)

/-- C5 witness: the initial state itself. -/
theorem hypothetical_nonempty_off_main_witness :
    (initialTimeline (0 : Nat)).hypothetical ≠ [] :=
  hypothetical_nonempty_off_main Relation.ReflTransGen.refl rfl

/-- C6 (confirmed): a legal `attemptMove` from `main` at index `k` records
`forkIndex = k`, replaces the hypothetical branch with exactly the one new
position and moves the cursor to `{onMain: false, index: 0}`; from the
hypothetical branch at index `j` it truncates the branch to its first
`j+1` elements, appends the new position, and moves the cursor index to
`j+1`. -/
theorem makeMove_fork_and_truncate {f : α → Option α} {t : BoardTimeline α}
    {r : MoveResult} {t' : BoardTimeline α}
    (h : makeMove f t = some (r, t')) (hv : r.valid = true) :
    (t.position.main = true →
      t'.hypotheticalForksFrom = t.position.index ∧
      (∃ cur ns, getBoardState t = some cur ∧ f cur = some ns ∧
        t'.hypothetical = [ns]) ∧
      t'.position = ⟨false, 0⟩ ∧ t'.main = t.main) ∧
    (t.position.main = false →
      (∃ cur ns, getBoardState t = some cur ∧ f cur = some ns ∧
        t'.hypothetical = t.hypothetical.take (t.position.index + 1) ++ [ns]) ∧
      t'.position = ⟨false, t.position.index + 1⟩ ∧ t'.main = t.main ∧
      t'.hypotheticalForksFrom = t.hypotheticalForksFrom) := by
  unfold makeMove at h
  split at h
  · exact absurd h (by simp)
  rename_i cur hcur
  split at h
  · simp only [Option.some.injEq, Prod.mk.injEq] at h
    rw [← h.1] at hv
    exact absurd hv (by simp)
  rename_i ns hf
  split at h
  · rename_i hm
    simp only [Option.some.injEq, Prod.mk.injEq] at h
    cases h.2
    refine ⟨fun _ => ⟨rfl, ⟨cur, ns, hcur, hf, rfl⟩, rfl, rfl⟩, fun hc => ?_⟩
    rw [hm] at hc
    exact absurd hc (by simp)
  · rename_i hm
    simp only [Option.some.injEq, Prod.mk.injEq] at h
    cases h.2
    have hm' : t.position.main = false := by simpa using hm
    have hlt : t.position.index < t.hypothetical.length := by
      unfold getBoardState at hcur
      rw [if_neg (by simp [hm'])] at hcur
      exact List.getElem?_eq_some.mp hcur |>.fst
    refine ⟨fun hc => absurd (hm' ▸ hc) (by simp), fun _ => ?_⟩
    refine ⟨⟨cur, ns, hcur, hf, ?_⟩, rfl, rfl, rfl⟩
    by_cases he : t.position.index = t.hypothetical.length - 1
    · rw [if_pos he]
      have : t.position.index + 1 = t.hypothetical.length := by omega
      rw [this, List.take_length]
    · rw [if_neg he]

/-- C6 witness: forking a two-element main line at index 1 with a legal
move. -/
theorem makeMove_fork_and_truncate_witness :
    (⟨⟨false, 0⟩, [5, 6], [9], 1⟩ : BoardTimeline Nat).hypotheticalForksFrom
      = 1 ∧
    (⟨⟨false, 0⟩, [5, 6], [9], 1⟩ : BoardTimeline Nat).position = ⟨false, 0⟩ := by
  have h := makeMove_fork_and_truncate
    (show makeMove (fun _ => some 9)
        (⟨⟨true, 1⟩, [5, 6], [], 0⟩ : BoardTimeline Nat) =
      some (⟨true, ⟨false, 0⟩⟩, ⟨⟨false, 0⟩, [5, 6], [9], 1⟩) from rfl) rfl
  exact ⟨(h.1 rfl).1, (h.1 rfl).2.2.1⟩

/-- C7 (confirmed): `stepBackward` decrements a positive cursor index on
either branch; from the hypothetical branch at index 0 with a non-empty
`main` it collapses to `{onMain: true, index: forkIndex}` and discards the
hypothetical branch; otherwise it is a no-op; it always returns the new
cursor. -/
theorem previous_step_characterization (t : BoardTimeline α) :
    (previous t).1 = (previous t).2.position ∧
    (t.position.main = true → 0 < t.position.index →
      (previous t).2 = { t with position := ⟨true, t.position.index - 1⟩ }) ∧
    (t.position.main = false → 0 < t.position.index →
      (previous t).2 = { t with position := ⟨false, t.position.index - 1⟩ }) ∧
    (t.position.main = false → t.position.index = 0 → t.main ≠ [] →
      (previous t).2 = { t with position := ⟨true, t.hypotheticalForksFrom⟩,
                                hypothetical := [] }) ∧
    (t.position.main = true → t.position.index = 0 → (previous t).2 = t) ∧
    (t.position.main = false → t.position.index = 0 → t.main = [] →
      (previous t).2 = t) := by
  obtain ⟨⟨pm, pi⟩, m, hyp, fk⟩ := t
  refine ⟨rfl, ?_, ?_, ?_, ?_, ?_⟩
  · intro hm hi
    simp only at hm hi
    subst hm
    simp [previous, previousState, hi]
  · intro hm hi
    simp only at hm hi
    subst hm
    simp [previous, previousState, hi]
  · intro hm hi hne
    simp only at hm hi hne
    subst hm
    subst hi
    simp [previous, previousState, List.length_pos.mpr hne]
  · intro hm hi
    simp only at hm hi
    subst hm
    subst hi
    simp [previous, previousState]
  · intro hm hi hmain
    simp only at hm hi hmain
    subst hm
    subst hi
    subst hmain
    simp [previous, previousState]

/-- C7 witness: the collapse case at a concrete forked state. -/
theorem previous_step_characterization_witness :
    (previous (⟨⟨false, 0⟩, [3], [4], 0⟩ : BoardTimeline Nat)).2 =
      ⟨⟨true, 0⟩, [3], [], 0⟩ := by
  have h := previous_step_characterization
    (⟨⟨false, 0⟩, [3], [4], 0⟩ : BoardTimeline Nat)
  exact h.2.2.2.1 rfl rfl (by decide)

end Timeline

namespace Review

deriving instance DecidableEq for Except

/-- The `EvaluationScore` from `stockfish.ts`: either a signed centipawn
advantage or a signed mate distance. -/
inductive EvaluationScore where
  | CentipawnAdvantage (c : Int)
  | Mate (m : Int)
deriving DecidableEq, Repr

/-- The `"Mate" in score` test used by `game_review.ts`. -/
def isMateScore : EvaluationScore → Bool
  | .Mate _ => true
  | .CentipawnAdvantage _ => false

/-- The terminal outcome field of `StockfishEval` in `stockfish.ts`. -/
inductive Outcome where
  | WhiteWin
  | BlackWin
  | Draw
deriving DecidableEq, Repr

/-- The `Continuation` from `stockfish.ts`: a candidate line (a list of moves
in origin-destination coordinate notation) and its score. -/
structure Continuation where
  continuation : List String
  score : EvaluationScore
deriving DecidableEq, Repr

/-- The `StockfishEval` from `stockfish.ts`.  The `eval_depth` and `n_nodes`
fields are carried for faithfulness but never read by the reviewed
logic. -/
structure StockfishEval where
  eval_depth : Int
  n_nodes : Int
  continuations : List Continuation
  outcome : Option Outcome
deriving DecidableEq, Repr

/-- The `evalAsAbsoluteScore` from `stockfish.ts`.  The `throw` on a missing
top continuation is modelled as `none`. -/
def evalAsAbsoluteScore (sfEval : StockfishEval) : Option Int :=
  match sfEval.outcome with
  | some .Draw => some 0
  | some .WhiteWin => some 1000
  | some .BlackWin => some (-1000)
  | none =>
    match sfEval.continuations.head? with
    | none => none
    | some continuation =>
      match continuation.score with
      | .Mate m => some (if m < 0 then -1000 else 1000)
      | .CentipawnAdvantage c => some c

/-- The `getBestMove` from `stockfish.ts`.  An empty move list in the top
continuation yields `undefined` in TS; both `null` and `undefined` are
modelled as `none`. -/
def getBestMove (sfEval : StockfishEval) : Option String :=
  match sfEval.continuations.head? with
  | none => none
  | some continuation => continuation.continuation.head?

/-- The `MoveFeedback` from `game_review.ts`. -/
inductive MoveFeedback where
  | Book
  | Brilliant
  | Best
  | Miss
  | Good
  | Dubious
  | Blunder
deriving DecidableEq, Repr

/-- The `isPositiveFeedback` from `game_review.ts`. -/
def isPositiveFeedback (feedback : MoveFeedback) : Bool :=
  feedback == .Book || feedback == .Brilliant || feedback == .Best ||
    feedback == .Good

/-- The `GOOD_CP_LOSS_THRESHOLD` from `game_review.ts`. -/
def GOOD_CP_LOSS_THRESHOLD : Int := 50

/-- The `BLUNDER_CP_LOSS_THRESHOLD` from `game_review.ts`. -/
def BLUNDER_CP_LOSS_THRESHOLD : Int := 200

/-- The fields of a `chess.js` `Move` object read by `game_review.ts`:
origin square, destination square and the FEN of the resulting position
(`move.from`, `move.to`, `move.after`; `from` is a reserved word here). -/
structure MoveRec where
  fromSq : String
  toSq : String
  after : String
deriving DecidableEq, Repr

/-- The fields of a `BoardState` (from `board.ts`) read by the game
reviewer: the FEN string and the move that led to it. -/
structure BoardState where
  fen : String
  move : Option MoveRec
deriving DecidableEq, Repr

/-- An `Annotation` from `game_review.ts`.  The human-readable
`description` string (built with SAN notation obtained from the external
rules capability) is UI text and is not modelled. -/
structure Annotation where
  feedback : MoveFeedback
  evaluation : StockfishEval
  deltaScore : Int
  bestMove : Option String
deriving DecidableEq, Repr

/-- The `TimelineAnnotations` store from `game_review.ts`: one optional
annotation slot per timeline position. -/
structure TimelineAnnotations where
  annotations : List (Option Annotation)
deriving DecidableEq, Repr

namespace TimelineAnnotations

/-- The `TimelineAnnotations` constructor: one `null` slot per timeline
position. -/
def init (timelineLength : Nat) : TimelineAnnotations :=
  ⟨List.replicate timelineLength none⟩

/-- The `length` getter. -/
def length (a : TimelineAnnotations) : Nat :=
  a.annotations.length

/-- The `computeAccuracy`: positive-feedback count divided by the length of
the annotation array (JS float division is modelled exactly in `ℚ`; the
ratios involved are small integers over small integers). -/
def computeAccuracy (a : TimelineAnnotations) : ℚ :=
  (a.annotations.countP (fun x =>
    match x with
    | some ann => isPositiveFeedback ann.feedback
    | none => false) : ℚ) / (a.annotations.length : ℚ)

/-- The per-feedback weight used by `computeWeightedAccuracy`
(`BEST_MOVE_WEIGHT` etc.; the `switch` has no case for `Book`, `Miss` or
`Blunder`, which therefore contribute 0). -/
def feedbackWeight : MoveFeedback → ℚ
  | .Best => 1
  | .Brilliant => 1
  | .Good => 1 / 2
  | .Dubious => 1 / 4
  | _ => 0

/-- The `computeWeightedAccuracy`: sum of weights over all annotated slots
divided by the length of the annotation array. -/
def computeWeightedAccuracy (a : TimelineAnnotations) : ℚ :=
  (a.annotations.map (fun x =>
    match x with
    | some ann => feedbackWeight ann.feedback
    | none => 0)).sum / (a.annotations.length : ℚ)

/-- The `numMovesOfType`. -/
def numMovesOfType (a : TimelineAnnotations) (feedback : MoveFeedback) : Nat :=
  a.annotations.countP (fun x =>
    match x with
    | some ann => ann.feedback == feedback
    | none => false)

/-- The store's slot writer (`addAnnotation` in `game_review.ts`; named
`addAnnotationAt` here): writes the slot at `index`.  (In reviewed runs the
index is always in bounds; a JS out-of-bounds write would grow the array,
a `List.set` out of bounds is a no-op — no reviewed path hits this.) -/
def addAnnotationAt (a : TimelineAnnotations) (index : Nat) (ann : Annotation) :
    TimelineAnnotations :=
  ⟨a.annotations.set index (some ann)⟩

/-- The `getAnnotationAt`. -/
def getAnnotationAt (a : TimelineAnnotations) (index : Nat) : Option Annotation :=
  match a.annotations[index]? with
  | some (some ann) => some ann
  | _ => none

end TimelineAnnotations

/-- The move-classification decision list from the annotation loop of
`GameReviewer.beginGameReview` (`game_review.ts`, the `if`/`else if`
chain), for one main-line index `i ≥ 1`.

* `openingBook` is the opening-book mapping (`openingBook[fen]`; a JS
  lookup miss is `none`).
* `movePlayed` is `timeline[i]?.move ?? null`.
* `preEval` is `evaluations[i-1].eval`, `postEval` is
  `evaluations[i].eval`, `deltaScore` is `evaluations[i].deltaScore`.

The TS code reads `preEval.continuations[0].continuation[0]` before the
chain (the engine's best reply in the pre-move position) and the Miss and
Blunder branches read `postEval.continuations[0].score`; a JS crash on a
missing entry is modelled as `none`.  The result is the `feedback` label
only; the description strings are UI text built from the external SAN
capability and are not modelled. -/
def classify (openingBook : String → Option String) (movePlayed : Option MoveRec)
    (preEval postEval : StockfishEval) (deltaScore : Int) :
    Option MoveFeedback :=
  match preEval.continuations.head? with
  | none => none
  | some preTop =>
    match preTop.continuation.head? with
    | none => none
    | some bestMove =>
      if (movePlayed.elim false fun m => (openingBook m.after).isSome) then
        some .Book
      else if (movePlayed.elim false fun m => m.fromSq ++ m.toSq == bestMove) then
        some .Best
      else if isMateScore preTop.score then
        match postEval.continuations.head? with
        | none => none
        | some postTop =>
          if !isMateScore postTop.score then some .Miss
          else if deltaScore ≥ -GOOD_CP_LOSS_THRESHOLD then some .Good
          else if deltaScore ≥ -BLUNDER_CP_LOSS_THRESHOLD then some .Dubious
          else some .Blunder
      else
        if deltaScore ≥ -GOOD_CP_LOSS_THRESHOLD then some .Good
        else if deltaScore ≥ -BLUNDER_CP_LOSS_THRESHOLD then some .Dubious
        else
          match postEval.continuations.head? with
          | none => none
          | some _ => some .Blunder

/-- One element of the array built by `GameReviewer._getEvaluations`. -/
structure EvalRecord where
  eval : StockfishEval
  deltaScore : Int
deriving DecidableEq, Repr

/-- The loop body of `GameReviewer._getEvaluations`.  `evalFn` is the
external evaluation capability
(`stockfish.getEvaluationToDepth(fen, 10)`; a rejection is `.error`),
`turnOf` is the external rules capability's side-to-move query
(`new Chess(fen).turn() === "b"`).  `lastState`/`lastScore` carry the
loop variables.  A capability failure is caught and rethrown as
`"Stockfish evaluation failed."`; the uncaught `evalAsAbsoluteScore`
throw propagates as `"No continuation found."`. -/
def getEvaluationsGo (evalFn : String → Except String StockfishEval)
    (turnOf : String → Bool) :
    List BoardState → BoardState → Int → Except String (List EvalRecord)
  | [], _, _ => .ok []
  | thisState :: rest, lastState, lastScore =>
    match evalFn thisState.fen with
    | .error _ => .error "Stockfish evaluation failed."
    | .ok score =>
      match evalAsAbsoluteScore score with
      | none => .error "No continuation found."
      | some thisScore =>
        match getEvaluationsGo evalFn turnOf rest thisState thisScore with
        | .error e => .error e
        | .ok rest' =>
          .ok (⟨score,
                if turnOf lastState.fen then -(thisScore - lastScore)
                else thisScore - lastScore⟩ :: rest')

/-- The `GameReviewer._getEvaluations`: walks the timeline in order with
`lastState = timeline[0]` and `lastScore = 0`.  (The progress updates are
UI state read by no reviewed logic and are not modelled.) -/
def getEvaluations (evalFn : String → Except String StockfishEval)
    (turnOf : String → Bool) (timeline : List BoardState) :
    Except String (List EvalRecord) :=
  match timeline with
  | [] => .ok []
  | t0 :: _ => getEvaluationsGo evalFn turnOf timeline t0 0

/-- The mutable fields of a `GameReviewer` instance.  The `_stockfish`
handle is the external evaluation capability, passed to the operations as
`evalFn`. -/
structure GameReviewer where
  timeline : List BoardState
  annotations : TimelineAnnotations
  busy : Bool
  completed : Bool
deriving DecidableEq, Repr

/-- The `GameReviewer` constructor: rejects an empty timeline, otherwise
starts `Idle` with an all-`null` annotation store sized to the
timeline. -/
def GameReviewer.new (timeline : List BoardState) : Except String GameReviewer :=
  if timeline.isEmpty then .error "Game timeline must not be empty"
  else .ok
    { timeline := timeline
      annotations := TimelineAnnotations.init timeline.length
      busy := false
      completed := false }

/-- The annotation loop of `beginGameReview`
(`for (let i = 1; i < evaluations.length; i++)`), processing indices from
`i` upward.  The loop advances `i` by one per iteration and exits once
`i` reaches `evals.length`, so the structural `fuel` parameter (supplied
as `evals.length` by `beginGameReview`, one per remaining iteration)
never runs out before the exit test.  Returns the success flag and the
store as mutated so far (a JS crash inside the loop leaves the
already-written annotations in place). -/
def annotateFrom (openingBook : String → Option String)
    (timeline : List BoardState) (evals : List EvalRecord) :
    Nat → Nat → TimelineAnnotations → Bool × TimelineAnnotations
  | 0, _, store => (true, store)
  | fuel + 1, i, store =>
    if i < evals.length then
      match evals[i - 1]?, evals[i]? with
      | some prev, some cur =>
        match classify openingBook ((timeline[i]?).bind (·.move))
            prev.eval cur.eval cur.deltaScore with
        | none => (false, store)
        | some feedback =>
          annotateFrom openingBook timeline evals fuel (i + 1)
            (store.addAnnotationAt i
              ⟨feedback, cur.eval, cur.deltaScore, getBestMove cur.eval⟩)
      | _, _ => (false, store)
    else (true, store)

/-- The `GameReviewer.beginGameReview`: the state-machine guards, the
evaluation pass and the annotation loop.  `openingBook` is the opening
book fetched from `/resources/data/openings.json`.  The returned pair is
the thrown error (if any) and the instance state after the call. -/
def beginGameReview (evalFn : String → Except String StockfishEval)
    (turnOf : String → Bool) (openingBook : String → Option String)
    (g : GameReviewer) : Except String Unit × GameReviewer :=
  if g.busy then (.error "Game review already in progress.", g)
  else if g.completed then (.error "Game review already completed.", g)
  else
    match getEvaluations evalFn turnOf g.timeline with
    | .error e => (.error e, { g with busy := true })
    | .ok evaluations =>
      match annotateFrom openingBook g.timeline evaluations
          evaluations.length 1 g.annotations with
      | (false, store) =>
        (.error "TypeError", { g with busy := true, annotations := store })
      | (true, store) =>
        (.ok (), { g with busy := false, completed := true, annotations := store })

/-- The `GameReviewer.isBusy`. -/
def GameReviewer.isBusy (g : GameReviewer) : Bool := g.busy

/-- The `GameReviewer.isCompleted`. -/
def GameReviewer.isCompleted (g : GameReviewer) : Bool := g.completed

/-- The `GameReviewer.getAnnotations`: `null` until the review completed. -/
def getAnnotations (g : GameReviewer) : Option TimelineAnnotations :=
  if !g.completed then none else some g.annotations

/-- C1: the decision list of `beginGameReview` consults only the opening
book, the best-move string, the mate flags and the delta score — it never
counts legal moves, so an input corresponding to a forced pre-move
position (the played move `e7→e8` is the position's only legal move,
while the engine's line starts `"e7e8q"`, so the Book, Best and Miss
rules all fail) with delta −100 is labeled `Dubious`, not the `Good` the
claim (and the code's own doc comment on `MoveFeedback.Good`)
promises. -/
theorem classify_no_forced_move_override :
    classify (fun _ => none) (some ⟨"e7", "e8", "fen-after"⟩)
      ⟨10, 1000, [⟨["e7e8q"], .CentipawnAdvantage 300⟩], none⟩
      ⟨10, 1000, [⟨["d1d2"], .CentipawnAdvantage 200⟩], none⟩ (-100) =
      some .Dubious ∧
    classify (fun _ => none) (some ⟨"e7", "e8", "fen-after"⟩)
      ⟨10, 1000, [⟨["e7e8q"], .CentipawnAdvantage 300⟩], none⟩
      ⟨10, 1000, [⟨["d1d2"], .CentipawnAdvantage 200⟩], none⟩ (-100) ≠
      some .Good := by
  refine ⟨by decide, by decide⟩

/-- The Miss condition as claim C8 words it: the pre-move top line shows
a mate score, and the post-move top line no longer shows a mate *for the
side that had it* (mate scores are on the absolute scale, so the sign
names the mating side). -/
def specMissCondition (preEval postEval : StockfishEval) : Bool :=
  match preEval.continuations.head? with
  | some ⟨_, .Mate m⟩ =>
    match postEval.continuations.head? with
    | some ⟨_, .Mate m'⟩ => !((0 < m && 0 < m') || (m < 0 && m' < 0))
    | _ => true
  | _ => false

/-- C8 counterexample: the pre-move line shows `Mate 3` (for the mover)
and the post-move line shows `Mate −5` (for the opponent), so the claim's
condition holds — the mover's mate is gone — yet the code sees a mate
score on both sides of the move and labels the move `Blunder`, not
`Miss`. -/
theorem miss_rule_side_cex :
    specMissCondition
      ⟨10, 1000, [⟨["b1b2"], .Mate 3⟩], none⟩
      ⟨10, 1000, [⟨["c1c2"], .Mate (-5)⟩], none⟩ = true ∧
    classify (fun _ => none) (some ⟨"a1", "a2", "fen-x"⟩)
      ⟨10, 1000, [⟨["b1b2"], .Mate 3⟩], none⟩
      ⟨10, 1000, [⟨["c1c2"], .Mate (-5)⟩], none⟩ (-2000) = some .Blunder ∧
    classify (fun _ => none) (some ⟨"a1", "a2", "fen-x"⟩)
      ⟨10, 1000, [⟨["b1b2"], .Mate 3⟩], none⟩
      ⟨10, 1000, [⟨["c1c2"], .Mate (-5)⟩], none⟩ (-2000) ≠ some .Miss := by
  refine ⟨by decide, by decide, by decide⟩

/-- C8 (amended): when the Book and Best rules do not match (and the
evaluations carry top lines), the move is labeled `Miss` exactly when the
pre-move top line shows a mate score and the post-move top line shows no
mate score at all — for either side.  (The code tests only for the
presence of a mate score, not for whose mate it is.) -/
theorem miss_rule_characterization
    (book : String → Option String) (mp : Option MoveRec)
    (preEval postEval : StockfishEval) (delta : Int)
    (preTop postTop : Continuation) (bm : String)
    (hpre : preEval.continuations.head? = some preTop)
    (hbm : preTop.continuation.head? = some bm)
    (hpost : postEval.continuations.head? = some postTop)
    (hbook : (mp.elim false fun m => (book m.after).isSome) = false)
    (hbest : (mp.elim false fun m => m.fromSq ++ m.toSq == bm) = false) :
    classify book mp preEval postEval delta = some .Miss ↔
      (isMateScore preTop.score = true ∧ isMateScore postTop.score = false) := by
  simp only [classify, hpre, hbm, hbook, hbest, Bool.false_eq_true, if_false]
  by_cases hm : isMateScore preTop.score
  · simp only [hm, if_true, hpost]
    by_cases hm' : isMateScore postTop.score
    · simp only [hm', Bool.not_true, Bool.false_eq_true, if_false]
      split_ifs <;> simp [hm, hm']
    · simp only [Bool.not_eq_true] at hm'
      simp [hm, hm']
  · simp only [hm, Bool.false_eq_true, if_false]
    simp only [Bool.not_eq_true] at hm
    split_ifs <;> simp_all [hpost]

/-- C8 witness: a pre-move mate whose post-move top line is a centipawn
score is labeled `Miss`. -/
theorem miss_rule_characterization_witness :
    classify (fun _ => none) none
      ⟨10, 9, [⟨["a1b1"], .Mate 2⟩], none⟩
      ⟨10, 9, [⟨["c1d1"], .CentipawnAdvantage 0⟩], none⟩ 0 = some .Miss := by
  exact (miss_rule_characterization (fun _ => none) none
    ⟨10, 9, [⟨["a1b1"], .Mate 2⟩], none⟩
    ⟨10, 9, [⟨["c1d1"], .CentipawnAdvantage 0⟩], none⟩ 0
    ⟨["a1b1"], .Mate 2⟩ ⟨["c1d1"], .CentipawnAdvantage 0⟩ "a1b1"
    rfl rfl rfl rfl rfl).mpr ⟨rfl, rfl⟩

/-- C3 (confirmed): in a successful evaluation pass, every record after
the first stores `deltaScore` equal to the absolute score of its own
evaluation minus that of the previous record, negated exactly when the
side to move in the previous position was black. -/
theorem delta_sign_convention
    (evalFn : String → Except String StockfishEval)
    (turnOf : String → Bool) :
    ∀ (ts : List BoardState) (ls : BoardState) (lsc : Int)
      (recs : List EvalRecord) (i : Nat) (si : BoardState)
      (ri ri1 : EvalRecord),
      getEvaluationsGo evalFn turnOf ts ls lsc = .ok recs →
      ts[i]? = some si → recs[i]? = some ri → recs[i + 1]? = some ri1 →
      ∃ a b, evalAsAbsoluteScore ri.eval = some a ∧
        evalAsAbsoluteScore ri1.eval = some b ∧
        ri1.deltaScore = if turnOf si.fen then -(b - a) else b - a := by
  intro ts
  induction ts with
  | nil =>
    intro ls lsc recs i si ri ri1 h hs hr hr1
    simp at hs
  | cons s rest ih =>
    intro ls lsc recs i si ri ri1 h hs hr hr1
    rw [getEvaluationsGo] at h
    split at h
    · exact absurd h (by simp)
    rename_i sc he
    split at h
    · exact absurd h (by simp)
    rename_i tsc ha
    split at h
    · exact absurd h (by simp)
    rename_i rest' hg
    simp only [Except.ok.injEq] at h
    subst h
    match i with
    | 0 =>
      simp only [List.getElem?_cons_zero, Option.some.injEq] at hs hr
      subst hs
      subst hr
      simp only [List.getElem?_cons_succ] at hr1
      rcases rest with _ | ⟨s', rest₂⟩
      · rw [getEvaluationsGo] at hg
        simp only [Except.ok.injEq] at hg
        rw [← hg] at hr1
        simp at hr1
      · rw [getEvaluationsGo] at hg
        split at hg
        · exact absurd hg (by simp)
        rename_i sc' he'
        split at hg
        · exact absurd hg (by simp)
        rename_i tsc' ha'
        split at hg
        · exact absurd hg (by simp)
        rename_i rest₃ hg2
        simp only [Except.ok.injEq] at hg
        subst hg
        simp only [List.getElem?_cons_zero, Option.some.injEq] at hr1
        subst hr1
        exact ⟨tsc, tsc', ha, ha', rfl⟩
    | Nat.succ j =>
      simp only [List.getElem?_cons_succ] at hs hr hr1
      exact ih s tsc rest' j si ri ri1 hg hs hr hr1

/-- C3 witness: a two-position run where black moved into the second
position; the stored delta is the negated absolute-score difference. -/
theorem delta_sign_convention_witness :
    ∃ a b,
      evalAsAbsoluteScore
        ⟨10, 1, [⟨["a1a2"], .CentipawnAdvantage 40⟩], none⟩ = some a ∧
      evalAsAbsoluteScore
        ⟨10, 1, [⟨["b1b2"], .CentipawnAdvantage 15⟩], none⟩ = some b ∧
      (25 : Int) = if true then -(b - a) else b - a := by
  have h := delta_sign_convention
    (fun fen => if fen = "f0" then
        .ok ⟨10, 1, [⟨["a1a2"], .CentipawnAdvantage 40⟩], none⟩
      else .ok ⟨10, 1, [⟨["b1b2"], .CentipawnAdvantage 15⟩], none⟩)
    (fun _ => true)
    [⟨"f0", none⟩, ⟨"f1", none⟩] ⟨"f0", none⟩ 0
    [⟨⟨10, 1, [⟨["a1a2"], .CentipawnAdvantage 40⟩], none⟩, -40⟩,
     ⟨⟨10, 1, [⟨["b1b2"], .CentipawnAdvantage 15⟩], none⟩, 25⟩]
    0 ⟨"f0", none⟩
    ⟨⟨10, 1, [⟨["a1a2"], .CentipawnAdvantage 40⟩], none⟩, -40⟩
    ⟨⟨10, 1, [⟨["b1b2"], .CentipawnAdvantage 15⟩], none⟩, 25⟩
    (by decide) rfl rfl rfl
  simpa using h

/-- If the evaluation capability rejects at some index and succeeded with
scorable results before it, the evaluation pass stops with the caught and
rethrown `"Stockfish evaluation failed."` error. -/
theorem getEvaluationsGo_error
    (evalFn : String → Except String StockfishEval) (turnOf : String → Bool) :
    ∀ (ts : List BoardState) (ls : BoardState) (lsc : Int) (i : Nat)
      (si : BoardState) (e : String),
      ts[i]? = some si → evalFn si.fen = .error e →
      (∀ j sj, j < i → ts[j]? = some sj →
        ∃ sc a, evalFn sj.fen = .ok sc ∧ evalAsAbsoluteScore sc = some a) →
      getEvaluationsGo evalFn turnOf ts ls lsc =
        .error "Stockfish evaluation failed." := by
  intro ts
  induction ts with
  | nil =>
    intro ls lsc i si e hi hfail hok
    simp at hi
  | cons s rest ih =>
    intro ls lsc i si e hi hfail hok
    match i with
    | 0 =>
      simp only [List.getElem?_cons_zero, Option.some.injEq] at hi
      subst hi
      simp only [getEvaluationsGo, hfail]
    | Nat.succ j =>
      simp only [List.getElem?_cons_succ] at hi
      obtain ⟨sc, a, hsc, ha⟩ := hok 0 s (Nat.succ_pos j) (by simp)
      have hrec := ih s a j si e hi hfail
        (fun j' sj hj' hsj => hok (j' + 1) sj (by omega) (by simpa using hsj))
      simp only [getEvaluationsGo, hsc, ha, hrec]

/-- The same statement lifted to `_getEvaluations` itself. -/
theorem getEvaluations_error
    (evalFn : String → Except String StockfishEval) (turnOf : String → Bool)
    (tl : List BoardState) (i : Nat) (si : BoardState) (e : String)
    (hi : tl[i]? = some si) (hfail : evalFn si.fen = .error e)
    (hok : ∀ j sj, j < i → tl[j]? = some sj →
      ∃ sc a, evalFn sj.fen = .ok sc ∧ evalAsAbsoluteScore sc = some a) :
    getEvaluations evalFn turnOf tl = .error "Stockfish evaluation failed." := by
  match tl, hi with
  | t0 :: rest, hi =>
    exact getEvaluationsGo_error evalFn turnOf (t0 :: rest) t0 0 i si e hi hfail hok

/-- C9 (confirmed): when the evaluation capability throws at some position
(after succeeding, with scorable results, on the earlier ones), a review
pass started from the idle state surfaces the
`"Stockfish evaluation failed."` error, the annotation store is left
exactly as it was, and `getAnnotations` still returns `null`. -/
theorem review_eval_failure
    (evalFn : String → Except String StockfishEval) (turnOf : String → Bool)
    (book : String → Option String) (g : GameReviewer) (i : Nat)
    (si : BoardState) (e : String)
    (hbusy : g.busy = false) (hcomp : g.completed = false)
    (hi : g.timeline[i]? = some si) (hfail : evalFn si.fen = .error e)
    (hok : ∀ j sj, j < i → g.timeline[j]? = some sj →
      ∃ sc a, evalFn sj.fen = .ok sc ∧ evalAsAbsoluteScore sc = some a) :
    (beginGameReview evalFn turnOf book g).1 =
      .error "Stockfish evaluation failed." ∧
    getAnnotations (beginGameReview evalFn turnOf book g).2 = none ∧
    (beginGameReview evalFn turnOf book g).2.annotations = g.annotations := by
  have htl := getEvaluations_error evalFn turnOf g.timeline i si e hi hfail hok
  unfold beginGameReview
  simp only [hbusy, hcomp, Bool.false_eq_true, if_false, htl]
  simp [getAnnotations, hcomp]

/-- C9 witness: a two-position timeline whose second evaluation is
rejected by the engine. -/
theorem review_eval_failure_witness :
    (beginGameReview
      (fun fen => if fen = "f0" then
          .ok ⟨10, 1, [⟨["a1a2"], .CentipawnAdvantage 0⟩], none⟩
        else .error "engine crashed")
      (fun _ => false) (fun _ => none)
      ⟨[⟨"f0", none⟩, ⟨"f1", none⟩], ⟨[none, none]⟩, false, false⟩).1 =
      .error "Stockfish evaluation failed." ∧
    getAnnotations (beginGameReview
      (fun fen => if fen = "f0" then
          .ok ⟨10, 1, [⟨["a1a2"], .CentipawnAdvantage 0⟩], none⟩
        else .error "engine crashed")
      (fun _ => false) (fun _ => none)
      ⟨[⟨"f0", none⟩, ⟨"f1", none⟩], ⟨[none, none]⟩, false, false⟩).2 = none := by
  have h := review_eval_failure
    (fun fen => if fen = "f0" then
        .ok ⟨10, 1, [⟨["a1a2"], .CentipawnAdvantage 0⟩], none⟩
      else .error "engine crashed")
    (fun _ => false) (fun _ => none)
    ⟨[⟨"f0", none⟩, ⟨"f1", none⟩], ⟨[none, none]⟩, false, false⟩
    1 ⟨"f1", none⟩ "engine crashed" rfl rfl rfl (by decide)
    (fun j sj hj hsj => by
      have hj0 : j = 0 := by omega
      subst hj0
      simp only [List.getElem?_cons_zero, Option.some.injEq] at hsj
      subst hsj
      exact ⟨⟨10, 1, [⟨["a1a2"], .CentipawnAdvantage 0⟩], none⟩, 0, rfl, rfl⟩)
  exact ⟨h.1, h.2.1⟩

/-- C10 (confirmed): if a review pass started from the idle state ends by
raising any error, the instance is left `busy = true` and
`completed = false`, so every later `beginGameReview` call on the same
instance fails with `"Game review already in progress."` and changes
nothing. -/
theorem review_error_leaves_busy
    (evalFn : String → Except String StockfishEval) (turnOf : String → Bool)
    (book : String → Option String) (g : GameReviewer) (e : String)
    (hbusy : g.busy = false) (hcomp : g.completed = false)
    (herr : (beginGameReview evalFn turnOf book g).1 = .error e) :
    (beginGameReview evalFn turnOf book g).2.busy = true ∧
    (beginGameReview evalFn turnOf book g).2.completed = false ∧
    ∀ (evalFn' : String → Except String StockfishEval)
      (turnOf' : String → Bool) (book' : String → Option String),
      beginGameReview evalFn' turnOf' book'
        (beginGameReview evalFn turnOf book g).2 =
        (.error "Game review already in progress.",
          (beginGameReview evalFn turnOf book g).2) := by
  unfold beginGameReview at herr ⊢
  simp only [hbusy, hcomp, Bool.false_eq_true, if_false] at herr ⊢
  rcases hev : getEvaluations evalFn turnOf g.timeline with e' | evals <;>
    simp only [hev] at herr ⊢
  · refine ⟨by simp, by simp [hcomp], ?_⟩
    intro evalFn' turnOf' book'
    simp
  · rcases han : annotateFrom book g.timeline evals evals.length 1 g.annotations
      with ⟨flag, store⟩
    rcases flag with _ | _ <;> simp only [han] at herr ⊢
    · refine ⟨by simp, by simp [hcomp], ?_⟩
      intro evalFn' turnOf' book'
      simp
    · exact absurd herr (by simp)

/-- C10 witness: the failed pass of the C9 scenario leaves the instance
busy, and a retry on the same instance is rejected. -/
theorem review_error_leaves_busy_witness :
    (beginGameReview
      (fun fen => if fen = "f0" then
          .ok ⟨10, 1, [⟨["a1a2"], .CentipawnAdvantage 0⟩], none⟩
        else .error "engine crashed")
      (fun _ => false) (fun _ => none)
      ⟨[⟨"f0", none⟩, ⟨"f1", none⟩], ⟨[none, none]⟩, false, false⟩).2.busy =
      true ∧
    (beginGameReview (fun _ => .ok ⟨10, 1, [], none⟩) (fun _ => false)
      (fun _ => none)
      (beginGameReview
        (fun fen => if fen = "f0" then
            .ok ⟨10, 1, [⟨["a1a2"], .CentipawnAdvantage 0⟩], none⟩
          else .error "engine crashed")
        (fun _ => false) (fun _ => none)
        ⟨[⟨"f0", none⟩, ⟨"f1", none⟩], ⟨[none, none]⟩, false, false⟩).2).1 =
      .error "Game review already in progress." := by
  have h := review_error_leaves_busy
    (fun fen => if fen = "f0" then
        .ok ⟨10, 1, [⟨["a1a2"], .CentipawnAdvantage 0⟩], none⟩
      else .error "engine crashed")
    (fun _ => false) (fun _ => none)
    ⟨[⟨"f0", none⟩, ⟨"f1", none⟩], ⟨[none, none]⟩, false, false⟩
    "Stockfish evaluation failed." rfl rfl (by decide)
  refine ⟨h.1, ?_⟩
  rw [h.2.2 (fun _ => .ok ⟨10, 1, [], none⟩) (fun _ => false) (fun _ => none)]

/-- Following claim C2's words: the number of annotated moves — the slots
of the store actually holding an annotation. -/
def annotatedCount (a : TimelineAnnotations) : Nat :=
  a.annotations.countP (·.isSome)

/-- Following claim C2's words: the number of moves whose label is one of
`Book`, `Brilliant`, `Best`, `Good`. -/
def positiveCount (a : TimelineAnnotations) : Nat :=
  a.annotations.countP (fun x =>
    match x with
    | some ann => isPositiveFeedback ann.feedback
    | none => false)

/-- Following claim C2's words: the sum of the per-label weights over all
annotated moves. -/
def weightSum (a : TimelineAnnotations) : ℚ :=
  (a.annotations.map (fun x =>
    match x with
    | some ann => TimelineAnnotations.feedbackWeight ann.feedback
    | none => 0)).sum

theorem getEvaluationsGo_length
    (evalFn : String → Except String StockfishEval) (turnOf : String → Bool) :
    ∀ (ts : List BoardState) (ls : BoardState) (lsc : Int)
      (recs : List EvalRecord),
      getEvaluationsGo evalFn turnOf ts ls lsc = .ok recs →
      recs.length = ts.length := by
  intro ts
  induction ts with
  | nil =>
    intro ls lsc recs h
    rw [getEvaluationsGo] at h
    simp only [Except.ok.injEq] at h
    rw [← h]
    rfl
  | cons s rest ih =>
    intro ls lsc recs h
    rw [getEvaluationsGo] at h
    split at h
    · exact absurd h (by simp)
    split at h
    · exact absurd h (by simp)
    split at h
    · exact absurd h (by simp)
    rename_i rest' hg
    simp only [Except.ok.injEq] at h
    rw [← h]
    simp [ih s _ rest' hg]

theorem getEvaluations_length
    (evalFn : String → Except String StockfishEval) (turnOf : String → Bool)
    (tl : List BoardState) (recs : List EvalRecord)
    (h : getEvaluations evalFn turnOf tl = .ok recs) :
    recs.length = tl.length := by
  match tl, h with
  | [], h =>
    rw [getEvaluations] at h
    simp only [Except.ok.injEq] at h
    rw [← h]
    rfl
  | t0 :: rest, h =>
    exact getEvaluationsGo_length evalFn turnOf (t0 :: rest) t0 0 recs h

/-- What a successful annotation loop run does to the store: lengths are
preserved, slots below the start index and at or beyond the evaluation
count are untouched, and every index from the start index up to the
evaluation count ends up holding an annotation. -/
theorem annotateFrom_spec (book : String → Option String)
    (tl : List BoardState) (evals : List EvalRecord) :
    ∀ (fuel i : Nat) (store store' : TimelineAnnotations),
      evals.length - i ≤ fuel →
      store.annotations.length = evals.length →
      annotateFrom book tl evals fuel i store = (true, store') →
      store'.annotations.length = store.annotations.length ∧
      (∀ k, k < i → store'.annotations[k]? = store.annotations[k]?) ∧
      (∀ k, i ≤ k → k < evals.length →
        ∃ y, store'.annotations[k]? = some (some y)) := by
  intro fuel
  induction fuel with
  | zero =>
    intro i store store' hn hlen h
    rw [annotateFrom] at h
    simp only [Prod.mk.injEq, true_and] at h
    subst h
    exact ⟨rfl, fun k _ => rfl, fun k hik hk => absurd hk (by omega)⟩
  | succ fuel ih =>
    intro i store store' hn hlen h
    rw [annotateFrom] at h
    by_cases hlt : i < evals.length
    case neg =>
      rw [if_neg hlt] at h
      simp only [Prod.mk.injEq, true_and] at h
      subst h
      exact ⟨rfl, fun k _ => rfl, fun k hik hk => absurd hk (by omega)⟩
    rw [if_pos hlt] at h
    rcases hprev : evals[i - 1]? with _ | prev
    · have := List.getElem?_eq_none_iff.mp hprev
      omega
    rcases hcur : evals[i]? with _ | cur
    · have := List.getElem?_eq_none_iff.mp hcur
      omega
    simp only [hprev, hcur] at h
    rcases hcl : classify book ((tl[i]?).bind (·.move)) prev.eval cur.eval
        cur.deltaScore with _ | feedback
    · simp only [hcl] at h
      simp at h
    simp only [hcl] at h
    have hlen1 : (store.addAnnotationAt i
        ⟨feedback, cur.eval, cur.deltaScore, getBestMove cur.eval⟩).annotations.length
        = evals.length := by
      simp [TimelineAnnotations.addAnnotationAt, hlen]
    obtain ⟨ih1, ih2, ih3⟩ := ih (i + 1) _ store' (by omega) hlen1 h
    refine ⟨?_, ?_, ?_⟩
    · rw [ih1]
      simp [TimelineAnnotations.addAnnotationAt]
    · intro k hk
      rw [ih2 k (by omega)]
      simp only [TimelineAnnotations.addAnnotationAt]
      exact List.getElem?_set_ne (by omega)
    · intro k hik hk
      by_cases hki : k = i
      · subst hki
        rw [ih2 k (by omega)]
        simp only [TimelineAnnotations.addAnnotationAt]
        exact ⟨_, List.getElem?_set_eq_of_lt _ (by omega)⟩
      · exact ih3 k (by omega) hk

/-- Counting the annotated slots of a store whose slot 0 is empty and
whose other slots are all filled. -/
theorem countP_isSome_head_none {β : Type} :
    ∀ (l : List (Option β)),
      l[0]? = some none →
      (∀ k, 1 ≤ k → k < l.length → ∃ y, l[k]? = some (some y)) →
      l.countP (·.isSome) = l.length - 1 := by
  intro l h0 hall
  rcases l with _ | ⟨x, xs⟩
  · simp at h0
  simp only [List.getElem?_cons_zero, Option.some.injEq] at h0
  subst h0
  rw [List.countP_cons]
  have hxs : ∀ z ∈ xs, (Option.isSome z) = true := by
    intro z hz
    obtain ⟨k, hk, hkz⟩ := List.getElem_of_mem hz
    obtain ⟨y, hy⟩ := hall (k + 1) (by omega) (by simp; omega)
    simp only [List.getElem?_cons_succ] at hy
    rw [List.getElem?_eq_getElem hk, hkz] at hy
    simp only [Option.some.injEq] at hy
    rw [hy]
    rfl
  rw [List.countP_eq_length.mpr hxs]
  simp

/-- C2 (amended): every annotation store produced by a completed review
has one slot per timeline position; the number of annotated moves is one
less (index 0, the starting position, is never annotated); and
`computeAccuracy` (resp. `computeWeightedAccuracy`) divides the
positive-label count (resp. the weight sum) by the position count — not
by the number of annotated moves. -/
theorem accuracy_denominator_is_position_count
    (evalFn : String → Except String StockfishEval) (turnOf : String → Bool)
    (book : String → Option String) (tl : List BoardState)
    (g g' : GameReviewer)
    (hnew : GameReviewer.new tl = .ok g)
    (hrun : beginGameReview evalFn turnOf book g = (.ok (), g')) :
    g'.annotations.length = tl.length ∧
    annotatedCount g'.annotations = tl.length - 1 ∧
    g'.annotations.computeAccuracy =
      (positiveCount g'.annotations : ℚ) / (tl.length : ℚ) ∧
    g'.annotations.computeWeightedAccuracy =
      weightSum g'.annotations / (tl.length : ℚ) := by
  unfold GameReviewer.new at hnew
  split at hnew
  · exact absurd hnew (by simp)
  rename_i hne
  simp only [Except.ok.injEq] at hnew
  have hne' : tl ≠ [] := by simpa [List.isEmpty_iff] using hne
  subst hnew
  unfold beginGameReview at hrun
  simp only [Bool.false_eq_true, if_false] at hrun
  rcases hev : getEvaluations evalFn turnOf tl with e | evals <;>
    simp only [hev] at hrun
  · simp at hrun
  rcases han : annotateFrom book tl evals evals.length 1
      (TimelineAnnotations.init tl.length) with ⟨flag, store⟩
  rcases flag with _ | _ <;> simp only [han] at hrun
  · simp at hrun
  have hg' : g' = GameReviewer.mk tl store false true := by
    simp only [Prod.mk.injEq] at hrun
    exact hrun.2.symm
  subst hg'
  have hevlen : evals.length = tl.length :=
    getEvaluations_length evalFn turnOf tl evals hev
  have hinitlen : (TimelineAnnotations.init tl.length).annotations.length
      = evals.length := by
    simp [TimelineAnnotations.init, hevlen]
  obtain ⟨h1, h2, h3⟩ := annotateFrom_spec book tl evals evals.length 1
    (TimelineAnnotations.init tl.length) store (by omega) hinitlen han
  have hlen : store.annotations.length = tl.length := by
    rw [h1, hinitlen, hevlen]
  have htlpos : 0 < tl.length := List.length_pos.mpr hne'
  have hslot0 : store.annotations[0]? = some none := by
    rw [h2 0 (by omega)]
    show (List.replicate tl.length (none : Option Annotation))[0]? = some none
    rw [List.getElem?_eq_getElem (by simpa using htlpos)]
    simp
  have hcount : annotatedCount ⟨store.annotations⟩ = tl.length - 1 := by
    unfold annotatedCount
    rw [countP_isSome_head_none store.annotations hslot0
      (fun k h1k hk => h3 k h1k (by omega)), hlen]
  refine ⟨hlen, hcount, ?_, ?_⟩
  · unfold TimelineAnnotations.computeAccuracy positiveCount
    rw [hlen]
  · unfold TimelineAnnotations.computeWeightedAccuracy weightSum
    rw [hlen]

/-- C2 counterexample: a completed review of a two-position timeline whose
single move is labeled `Best`.  `computeAccuracy` returns `1/2` — the
positive count divided by the position count — while the claim's ratio,
positive count over annotated-move count, is `1`. -/
theorem accuracy_denominator_cex :
    (beginGameReview
      (fun _ => .ok ⟨10, 1, [⟨["a1a2"], .CentipawnAdvantage 0⟩], none⟩)
      (fun _ => false) (fun _ => none)
      ⟨[⟨"g0", none⟩, ⟨"g1", some ⟨"a1", "a2", "g1"⟩⟩],
        ⟨[none, none]⟩, false, false⟩).1 = .ok () ∧
    TimelineAnnotations.computeAccuracy
      (beginGameReview
        (fun _ => .ok ⟨10, 1, [⟨["a1a2"], .CentipawnAdvantage 0⟩], none⟩)
        (fun _ => false) (fun _ => none)
        ⟨[⟨"g0", none⟩, ⟨"g1", some ⟨"a1", "a2", "g1"⟩⟩],
          ⟨[none, none]⟩, false, false⟩).2.annotations = 1 / 2 ∧
    (positiveCount
        (beginGameReview
          (fun _ => .ok ⟨10, 1, [⟨["a1a2"], .CentipawnAdvantage 0⟩], none⟩)
          (fun _ => false) (fun _ => none)
          ⟨[⟨"g0", none⟩, ⟨"g1", some ⟨"a1", "a2", "g1"⟩⟩],
            ⟨[none, none]⟩, false, false⟩).2.annotations : ℚ) /
      (annotatedCount
        (beginGameReview
          (fun _ => .ok ⟨10, 1, [⟨["a1a2"], .CentipawnAdvantage 0⟩], none⟩)
          (fun _ => false) (fun _ => none)
          ⟨[⟨"g0", none⟩, ⟨"g1", some ⟨"a1", "a2", "g1"⟩⟩],
            ⟨[none, none]⟩, false, false⟩).2.annotations : ℚ) = 1 ∧
    (1 / 2 : ℚ) ≠ 1 := by
  have hstore : (beginGameReview
      (fun _ => .ok ⟨10, 1, [⟨["a1a2"], .CentipawnAdvantage 0⟩], none⟩)
      (fun _ => false) (fun _ => none)
      ⟨[⟨"g0", none⟩, ⟨"g1", some ⟨"a1", "a2", "g1"⟩⟩],
        ⟨[none, none]⟩, false, false⟩).2.annotations =
      ⟨[none, some ⟨.Best, ⟨10, 1, [⟨["a1a2"], .CentipawnAdvantage 0⟩], none⟩,
        0, some "a1a2"⟩]⟩ := rfl
  refine ⟨rfl, ?_, ?_, by norm_num⟩
  · rw [hstore]
    show ((1 : ℕ) : ℚ) / ((2 : ℕ) : ℚ) = 1 / 2
    norm_num
  · rw [hstore]
    show ((1 : ℕ) : ℚ) / ((1 : ℕ) : ℚ) = 1
    norm_num

/-- C2 witness: the amended statement evaluated on the concrete completed
review of the counterexample scenario. -/
theorem accuracy_denominator_witness :
    (beginGameReview
      (fun _ => .ok ⟨10, 1, [⟨["a1a2"], .CentipawnAdvantage 0⟩], none⟩)
      (fun _ => false) (fun _ => none)
      ⟨[⟨"h0", none⟩, ⟨"h1", some ⟨"a1", "a2", "h1"⟩⟩],
        ⟨[none, none]⟩, false, false⟩).2.annotations.length = 2 ∧
    annotatedCount
      (beginGameReview
        (fun _ => .ok ⟨10, 1, [⟨["a1a2"], .CentipawnAdvantage 0⟩], none⟩)
        (fun _ => false) (fun _ => none)
        ⟨[⟨"h0", none⟩, ⟨"h1", some ⟨"a1", "a2", "h1"⟩⟩],
          ⟨[none, none]⟩, false, false⟩).2.annotations = 1 := by
  have h := accuracy_denominator_is_position_count
    (fun _ => .ok ⟨10, 1, [⟨["a1a2"], .CentipawnAdvantage 0⟩], none⟩)
    (fun _ => false) (fun _ => none)
    [⟨"h0", none⟩, ⟨"h1", some ⟨"a1", "a2", "h1"⟩⟩]
    ⟨[⟨"h0", none⟩, ⟨"h1", some ⟨"a1", "a2", "h1"⟩⟩], ⟨[none, none]⟩,
      false, false⟩
    (beginGameReview
      (fun _ => .ok ⟨10, 1, [⟨["a1a2"], .CentipawnAdvantage 0⟩], none⟩)
      (fun _ => false) (fun _ => none)
      ⟨[⟨"h0", none⟩, ⟨"h1", some ⟨"a1", "a2", "h1"⟩⟩],
        ⟨[none, none]⟩, false, false⟩).2
    (by decide) (by decide)
  exact ⟨h.1, h.2.1⟩

end Review
